import Mathlib

/- Shallow embedding of pb-alloc.c, a pointer-bumping heap allocator.

The C program works on 64-bit machine integers: `size_t` values wrap
modulo 2^64 and `intptr_t` values wrap into [-2^63, 2^63).  All arithmetic
below is over `Int` with the wrapping made explicit through `u64` and `s64`.
Byte memory is modelled as a total function from addresses to byte values;
the `size` field of each block header (a `size_t` stored at the header
address) is modelled as a separate map from header addresses to values. -/

namespace PBAlloc

/-- Modulus of 64-bit machine arithmetic, 2^64. -/
def M64 : Int := 18446744073709551616

/-- Half of the modulus, 2^63: the first value that wraps negative as `intptr_t`. -/
def HALF64 : Int := 9223372036854775808

/-- Value of an expression computed in `size_t` (unsigned, wraps mod 2^64). -/
def u64 (x : Int) : Int := x % M64

/-- Conversion of a machine word to `intptr_t` (two's-complement, wraps into [-2^63, 2^63)). -/
def s64 (x : Int) : Int := u64 (x + HALF64) - HALF64

/-- Size in bytes of `header_s`, which holds a single `size_t` field (pb-alloc.c line 52-57). -/
def hdrSize : Int := 8

/-- HEAP_SIZE = GB(2) = 2 * 1024 * 1024 * 1024 bytes (pb-alloc.c lines 39-44). -/
def HEAP_SIZE : Int := 2147483648

/-- Allocator state: the three global addresses of pb-alloc.c lines 62-73
together with the heap memory.  `headers` maps a header address to the
`size_t` stored there by `header_ptr->size = size`; `mem` maps a byte
address to the byte stored there. -/
structure AllocState where
  start_addr : Int
  end_addr : Int
  free_addr : Int
  headers : Int → Int
  mem : Int → Int

/-- State before any call: the three globals are 0 (their static initializers)
and the future mmap'd region is anonymous zero-filled memory. -/
def initialState : AllocState :=
  { start_addr := 0, end_addr := 0, free_addr := 0,
    headers := fun _ => 0, mem := fun _ => 0 }

/-- The `init` function (pb-alloc.c lines 82-112): on first use, record the
bounds of the mmap'd heap and set the cursor to its start.  `heap` is the
address returned by the successful `mmap` call (a failed mmap is fatal and
terminates the process, so it does not appear in the model). -/
def init (heap : Int) (s : AllocState) : AllocState :=
  if s.start_addr = 0 then
    { s with start_addr := heap, end_addr := heap + HEAP_SIZE, free_addr := heap }
  else s

/-- The padding computation of pb-alloc.c lines 136-137:
`pad = 16 - ((free_addr + sizeof(header_s)) % 16); pad = pad % 16;`
performed in `size_t` arithmetic. -/
def padFor (free_addr : Int) : Int :=
  (16 - u64 (free_addr + hdrSize) % 16) % 16

/-- The `malloc` function (pb-alloc.c lines 126-149).  Returns the block
pointer (or `none` for NULL) together with the post-call state. -/
def malloc (heap : Int) (s0 : AllocState) (size : Int) : Option Int × AllocState :=
  let s := init heap s0
  if size = 0 then (none, s)
  else
    let total_size := u64 (size + hdrSize)
    let pad := padFor s.free_addr
    let header_addr := u64 (s.free_addr + pad)
    let block_addr := u64 (s.free_addr + pad + hdrSize)
    let new_free_addr := s64 (s.free_addr + pad + total_size)
    if new_free_addr > s.end_addr then (none, s)
    else
      (some block_addr,
       { s with
           free_addr := new_free_addr,
           headers := fun a => if a = header_addr then size else s.headers a })

/-- The `free` function (pb-alloc.c lines 161-165): a pure no-op apart from
a DEBUG message. -/
def free (s : AllocState) (_ptr : Int) : AllocState := s

/-- The `calloc` function (pb-alloc.c lines 179-192): multiply `nmemb * size`
in `size_t` arithmetic (unchecked), delegate to `malloc`, and `memset` the
block to zero when the allocation succeeded. -/
def calloc (heap : Int) (s : AllocState) (nmemb size : Int) : Option Int × AllocState :=
  let block_size := u64 (nmemb * size)
  let r := malloc heap s block_size
  match r.1 with
  | none => (none, r.2)
  | some block_ptr =>
      (some block_ptr,
       { r.2 with
           mem := fun a =>
             if block_ptr ≤ a ∧ a < block_ptr + block_size then 0 else r.2.mem a })

/-- The `realloc` function (pb-alloc.c lines 210-234).  A NULL argument is
modelled as `none`; the header of the old block is read at
`(intptr_t)ptr - sizeof(header_s)` (computed in machine arithmetic), the
grow path `memcpy`s `old_size` bytes into the new block and then calls
`free` on the old pointer. -/
def realloc (heap : Int) (s : AllocState) (ptr : Option Int) (size : Int) :
    Option Int × AllocState :=
  match ptr with
  | none => malloc heap s size
  | some p =>
      if size = 0 then (none, free s p)
      else
        let old_size := s.headers (u64 (p - hdrSize))
        if size ≤ old_size then (some p, s)
        else
          let r := malloc heap s size
          match r.1 with
          | none => (none, r.2)
          | some new_ptr =>
              (some new_ptr,
               free
                 { r.2 with
                     mem := fun a =>
                       if new_ptr ≤ a ∧ a < new_ptr + old_size
                       then r.2.mem (p + (a - new_ptr)) else r.2.mem a }
                 p)

/-- One external call to the allocator interface. -/
inductive Op where
  | alloc (size : Int)
  | zalloc (nmemb size : Int)
  | resize (ptr : Option Int) (size : Int)
  | dealloc (ptr : Int)

/-- Performs one operation and also reports the block freshly carved out of
the region by the operation's (inner) successful `malloc`, if any, as a pair
(payload address, payload size). -/
def stepCarves (heap : Int) (s : AllocState) : Op → AllocState × List (Int × Int)
  | Op.alloc size =>
      let r := malloc heap s size
      (r.2, match r.1 with | some p => [(p, size)] | none => [])
  | Op.zalloc nmemb size =>
      let r := calloc heap s nmemb size
      (r.2, match r.1 with | some p => [(p, u64 (nmemb * size))] | none => [])
  | Op.resize ptr size =>
      let r := realloc heap s ptr size
      (r.2,
       match ptr with
       | none => (match r.1 with | some p => [(p, size)] | none => [])
       | some q =>
           if size = 0 then []
           else if size ≤ s.headers (u64 (q - hdrSize)) then []
           else match r.1 with | some p => [(p, size)] | none => [])
  | Op.dealloc ptr => (free s ptr, [])

/-- Runs a sequence of operations, accumulating the carved blocks. -/
def run (heap : Int) : AllocState → List (Int × Int) → List Op → AllocState × List (Int × Int)
  | s, bs, [] => (s, bs)
  | s, bs, op :: ops =>
      let r := stepCarves heap s op
      run heap r.1 (bs ++ r.2) ops

/-- Upper bound assumed on the mmap base address: 2^48 (user-space addresses
on 64-bit hardware fit well below this). -/
def ADDR_CAP : Int := 281474976710656

/-- Size cap 2^62 used by the amended claims: requested sizes at most 2^62
keep all of malloc's size arithmetic free of 64-bit wraparound. -/
def SZCAP : Int := 4611686018427387904

/-- The three globals still hold their static zero initializers. -/
def Uninit (s : AllocState) : Prop :=
  s.start_addr = 0 ∧ s.end_addr = 0 ∧ s.free_addr = 0

/-- A well-formed initialized region: positive base below ADDR_CAP, the end
exactly HEAP_SIZE past the start, and the cursor inside the region. -/
def RegionOK (s : AllocState) : Prop :=
  0 < s.start_addr ∧ s.start_addr ≤ s.free_addr ∧ s.free_addr ≤ s.end_addr ∧
  s.end_addr = s.start_addr + HEAP_SIZE ∧ s.start_addr ≤ ADDR_CAP

/-- The payload range of a carved block lies between region start and cursor. -/
def BlockIn (s : AllocState) (b : Int × Int) : Prop :=
  s.start_addr ≤ b.1 ∧ b.1 + b.2 ≤ s.free_addr ∧ 0 < b.2

/-- Two payload ranges are separated (one ends before the other begins). -/
def Sep (b1 b2 : Int × Int) : Prop :=
  b1.1 + b1.2 ≤ b2.1 ∨ b2.1 + b2.2 ≤ b1.1

/-- Trace invariant: the region is untouched or well formed, every carved
block sits below the cursor, and the carved blocks are pairwise separated. -/
def Inv (s : AllocState) (bs : List (Int × Int)) : Prop :=
  (Uninit s ∨ RegionOK s) ∧ (∀ b ∈ bs, BlockIn s b) ∧ bs.Pairwise Sep

/-- An operation whose size arguments stay at most 2^62, so that none of the
allocator's internal 64-bit size computations wrap. -/
def SmallOp : Op → Prop
  | Op.alloc size => 0 ≤ size ∧ size ≤ SZCAP
  | Op.zalloc nmemb size => 0 ≤ nmemb ∧ 0 ≤ size ∧ nmemb * size ≤ SZCAP
  | Op.resize _ size => 0 ≤ size ∧ size ≤ SZCAP
  | Op.dealloc _ => True

instance : DecidablePred SmallOp := fun op =>
  match op with
  | Op.alloc size => inferInstanceAs (Decidable (0 ≤ size ∧ size ≤ SZCAP))
  | Op.zalloc nmemb size =>
      inferInstanceAs (Decidable (0 ≤ nmemb ∧ 0 ≤ size ∧ nmemb * size ≤ SZCAP))
  | Op.resize _ size => inferInstanceAs (Decidable (0 ≤ size ∧ size ≤ SZCAP))
  | Op.dealloc _ => inferInstanceAs (Decidable True)

/-- State after the heap has been initialized at base address 4096 (a
possible mmap result) and nothing has been allocated yet. -/
def sInit : AllocState := init 4096 initialState

/-- State after a single allocate(24) on a fresh heap based at 4096; the call
returns payload address 4112 with its header at 4104. -/
def sA : AllocState := (malloc 4096 initialState 24).2

/-- State after a single allocate that fills the whole region exactly: the
cursor now equals the region end, so every further allocation fails. -/
def sFull : AllocState := (malloc 4096 initialState 2147483632).2

/-! Arithmetic facts about the machine-word helpers. -/

theorem u64_bounds (x : Int) : 0 ≤ u64 x ∧ u64 x < M64 := by
  unfold u64 M64
  omega

theorem u64_eq_of (x : Int) (h0 : 0 ≤ x) (h1 : x < M64) : u64 x = x := by
  unfold u64
  exact Int.emod_eq_of_lt h0 h1

theorem s64_eq_of (x : Int) (h0 : 0 ≤ x) (h1 : x < HALF64) : s64 x = x := by
  unfold s64 u64 M64 HALF64
  unfold HALF64 at h1
  omega

theorem u64_mod16 (x : Int) : u64 x % 16 = x % 16 := by
  unfold u64 M64
  omega

theorem padFor_bounds (f : Int) : 0 ≤ padFor f ∧ padFor f < 16 := by
  unfold padFor u64 M64 hdrSize
  omega

theorem padFor_align (f : Int) : (f + padFor f + hdrSize) % 16 = 0 := by
  unfold padFor u64 M64 hdrSize
  omega

/-! Basic facts about `init`. -/

theorem init_id (heap : Int) (s : AllocState) (h : s.start_addr ≠ 0) :
    init heap s = s := by
  unfold init
  simp [h]

theorem init_idem (heap : Int) (s : AllocState) (hh : heap ≠ 0) :
    init heap (init heap s) = init heap s := by
  unfold init
  by_cases h : s.start_addr = 0 <;> simp [h, hh]

theorem malloc_init (heap : Int) (s : AllocState) (size : Int) (hh : heap ≠ 0) :
    malloc heap s size = malloc heap (init heap s) size := by
  unfold malloc
  rw [init_idem heap s hh]

theorem malloc_size_zero (heap : Int) (s : AllocState) (h : s.start_addr ≠ 0) :
    malloc heap s 0 = (none, s) := by
  unfold malloc
  rw [init_id heap s h]
  simp

/-! Characterizations of `malloc` on a well-formed region with a size that
keeps all the machine arithmetic inside its ranges. -/

theorem malloc_succ_clean (heap : Int) (s : AllocState) (size : Int)
    (hreg : RegionOK s) (h1 : 0 < size) (h2 : size ≤ SZCAP)
    (hfit : s.free_addr + padFor s.free_addr + hdrSize + size ≤ s.end_addr) :
    (malloc heap s size).1 = some (s.free_addr + padFor s.free_addr + hdrSize) ∧
    (malloc heap s size).2.start_addr = s.start_addr ∧
    (malloc heap s size).2.end_addr = s.end_addr ∧
    (malloc heap s size).2.free_addr = s.free_addr + padFor s.free_addr + hdrSize + size ∧
    (malloc heap s size).2.headers =
      (fun a => if a = s.free_addr + padFor s.free_addr then size else s.headers a) ∧
    (malloc heap s size).2.mem = s.mem := by
  obtain ⟨hs0, hsf, hfe, hend, hcap⟩ := hreg
  have hpad := padFor_bounds s.free_addr
  have hfree_ub : s.free_addr ≤ ADDR_CAP + HEAP_SIZE := by
    unfold ADDR_CAP HEAP_SIZE at *
    omega
  have htot : u64 (size + hdrSize) = size + hdrSize := by
    refine u64_eq_of _ (by unfold hdrSize; omega) ?_
    unfold M64 hdrSize
    unfold SZCAP at h2
    omega
  have hnf : s64 (s.free_addr + padFor s.free_addr + (size + hdrSize)) =
      s.free_addr + padFor s.free_addr + (size + hdrSize) := by
    refine s64_eq_of _ (by unfold hdrSize; omega) ?_
    unfold HALF64 hdrSize
    unfold SZCAP at h2
    unfold ADDR_CAP HEAP_SIZE at hfree_ub
    omega
  have hblk : u64 (s.free_addr + padFor s.free_addr + hdrSize) =
      s.free_addr + padFor s.free_addr + hdrSize := by
    refine u64_eq_of _ (by unfold hdrSize; omega) ?_
    unfold M64 hdrSize
    unfold ADDR_CAP HEAP_SIZE at hfree_ub
    omega
  have hhdra : u64 (s.free_addr + padFor s.free_addr) =
      s.free_addr + padFor s.free_addr := by
    refine u64_eq_of _ (by omega) ?_
    unfold M64
    unfold ADDR_CAP HEAP_SIZE at hfree_ub
    omega
  have hinit : init heap s = s := init_id heap s (by omega)
  have hm : malloc heap s size =
      (some (s.free_addr + padFor s.free_addr + hdrSize),
       { s with
           free_addr := s.free_addr + padFor s.free_addr + (size + hdrSize),
           headers := fun a =>
             if a = s.free_addr + padFor s.free_addr then size else s.headers a }) := by
    unfold malloc
    rw [hinit]
    simp only [htot, hnf, hblk, hhdra]
    rw [if_neg (by omega : ¬ size = 0)]
    rw [if_neg (by unfold hdrSize at *; omega :
      ¬ s.free_addr + padFor s.free_addr + (size + hdrSize) > s.end_addr)]
  rw [hm]
  refine ⟨rfl, rfl, rfl, ?_, rfl, rfl⟩
  show s.free_addr + padFor s.free_addr + (size + hdrSize) =
    s.free_addr + padFor s.free_addr + hdrSize + size
  omega

theorem malloc_fail_clean (heap : Int) (s : AllocState) (size : Int)
    (hreg : RegionOK s) (h1 : 0 < size) (h2 : size ≤ SZCAP)
    (hover : s.end_addr < s.free_addr + padFor s.free_addr + hdrSize + size) :
    malloc heap s size = (none, s) := by
  obtain ⟨hs0, hsf, hfe, hend, hcap⟩ := hreg
  have hpad := padFor_bounds s.free_addr
  have hfree_ub : s.free_addr ≤ ADDR_CAP + HEAP_SIZE := by
    unfold ADDR_CAP HEAP_SIZE at *
    omega
  have htot : u64 (size + hdrSize) = size + hdrSize := by
    refine u64_eq_of _ (by unfold hdrSize; omega) ?_
    unfold M64 hdrSize
    unfold SZCAP at h2
    omega
  have hnf : s64 (s.free_addr + padFor s.free_addr + (size + hdrSize)) =
      s.free_addr + padFor s.free_addr + (size + hdrSize) := by
    refine s64_eq_of _ (by unfold hdrSize; omega) ?_
    unfold HALF64 hdrSize
    unfold SZCAP at h2
    unfold ADDR_CAP HEAP_SIZE at hfree_ub
    omega
  have hinit : init heap s = s := init_id heap s (by omega)
  unfold malloc
  rw [hinit]
  simp only [htot, hnf]
  rw [if_neg (by omega : ¬ size = 0)]
  rw [if_pos (by unfold hdrSize at *; omega :
    s.free_addr + padFor s.free_addr + (size + hdrSize) > s.end_addr)]

/-- Unfolded form of `malloc` (the `let` bindings of the definition inlined). -/
theorem malloc_eq (heap : Int) (s : AllocState) (size : Int) :
    malloc heap s size =
      (if size = 0 then (none, init heap s)
       else
         if s64 ((init heap s).free_addr + padFor (init heap s).free_addr +
             u64 (size + hdrSize)) > (init heap s).end_addr
         then (none, init heap s)
         else
           (some (u64 ((init heap s).free_addr + padFor (init heap s).free_addr + hdrSize)),
            { init heap s with
                free_addr := s64 ((init heap s).free_addr + padFor (init heap s).free_addr +
                  u64 (size + hdrSize)),
                headers := fun a =>
                  if a = u64 ((init heap s).free_addr + padFor (init heap s).free_addr)
                  then size else (init heap s).headers a })) := rfl

theorem init_mem (heap : Int) (s : AllocState) : (init heap s).mem = s.mem := by
  unfold init
  split <;> rfl

theorem init_headers (heap : Int) (s : AllocState) : (init heap s).headers = s.headers := by
  unfold init
  split <;> rfl

theorem malloc_mem (heap : Int) (s : AllocState) (size : Int) :
    (malloc heap s size).2.mem = s.mem := by
  rw [malloc_eq]
  split
  · exact init_mem heap s
  · split
    · exact init_mem heap s
    · exact init_mem heap s

theorem malloc_none_state (heap : Int) (s : AllocState) (size : Int)
    (h : (malloc heap s size).1 = none) :
    (malloc heap s size).2 = init heap s := by
  rw [malloc_eq] at h ⊢
  split
  · rfl
  · split
    · rfl
    · rename_i h0 hov
      rw [if_neg h0, if_neg hov] at h
      simp at h

theorem malloc_some_eq (heap : Int) (s : AllocState) (size np : Int)
    (h : (malloc heap s size).1 = some np) :
    np = u64 ((init heap s).free_addr + padFor (init heap s).free_addr + hdrSize) ∧
    (malloc heap s size).2.headers =
      (fun a =>
        if a = u64 ((init heap s).free_addr + padFor (init heap s).free_addr)
        then size else s.headers a) ∧
    size ≠ 0 := by
  rw [malloc_eq] at h ⊢
  split at h
  · simp at h
  · split at h
    · simp at h
    · rename_i h0 hov
      refine ⟨by simpa using h.symm, ?_, h0⟩
      simp only [if_neg h0, if_neg hov]
      rw [init_headers heap s]

/-! The trace invariant and its preservation. -/

theorem inv_mem_update (s : AllocState) (m : Int → Int) (bs : List (Int × Int)) :
    Inv { s with mem := m } bs ↔ Inv s bs := Iff.rfl

theorem init_inv (heap : Int) (s : AllocState) (bs : List (Int × Int))
    (hh0 : 0 < heap) (hh1 : heap ≤ ADDR_CAP) (hInv : Inv s bs) :
    RegionOK (init heap s) ∧ (∀ b ∈ bs, BlockIn (init heap s) b) ∧ bs.Pairwise Sep ∧
    s.free_addr ≤ (init heap s).free_addr := by
  obtain ⟨hor, hblk, hpw⟩ := hInv
  by_cases h : s.start_addr = 0
  · have hun : Uninit s := by
      rcases hor with hu | hr
      · exact hu
      · exact absurd h (by unfold RegionOK at hr; omega)
    obtain ⟨h1, h2, h3⟩ := hun
    have hnone : ∀ b ∈ bs, False := by
      intro b hb
      have hb2 := hblk b hb
      unfold BlockIn at hb2
      omega
    unfold init
    rw [if_pos h]
    refine ⟨?_, ?_, hpw, ?_⟩
    · exact ⟨hh0, le_refl heap, by show heap ≤ heap + HEAP_SIZE; unfold HEAP_SIZE; omega,
        rfl, hh1⟩
    · intro b hb
      exact (hnone b hb).elim
    · show s.free_addr ≤ heap
      omega
  · rw [init_id heap s h]
    have hr : RegionOK s := by
      rcases hor with hu | hr
      · exact absurd hu.1 h
      · exact hr
    exact ⟨hr, hblk, hpw, le_refl _⟩

theorem malloc_carve (heap : Int) (s : AllocState) (bs : List (Int × Int)) (size : Int)
    (hh0 : 0 < heap) (hh1 : heap ≤ ADDR_CAP)
    (hInv : Inv s bs) (h0 : 0 ≤ size) (h2 : size ≤ SZCAP) :
    Inv (malloc heap s size).2
      (bs ++ (match (malloc heap s size).1 with | some p => [(p, size)] | none => [])) ∧
    s.free_addr ≤ (malloc heap s size).2.free_addr := by
  obtain ⟨hreg, hblk, hpw, hmono0⟩ := init_inv heap s bs hh0 hh1 hInv
  rw [malloc_init heap s size (by omega)]
  set t := init heap s with ht
  have hstart : t.start_addr ≠ 0 := by unfold RegionOK at hreg; omega
  by_cases hsz : size = 0
  · subst hsz
    rw [malloc_size_zero heap t hstart]
    show Inv t (bs ++ []) ∧ s.free_addr ≤ t.free_addr
    rw [List.append_nil]
    exact ⟨⟨Or.inr hreg, hblk, hpw⟩, hmono0⟩
  · have hpadb := padFor_bounds t.free_addr
    by_cases hfit : t.free_addr + padFor t.free_addr + hdrSize + size ≤ t.end_addr
    · obtain ⟨e1, e2, e3, e4, e5, e6⟩ :=
        malloc_succ_clean heap t size hreg (by omega) h2 hfit
      rw [e1]
      show Inv (malloc heap t size).2
          (bs ++ [(t.free_addr + padFor t.free_addr + hdrSize, size)]) ∧
        s.free_addr ≤ (malloc heap t size).2.free_addr
      obtain ⟨ht1, ht2, ht3, ht4, ht5⟩ := hreg
      have hhdr8 : (0:Int) < hdrSize := by unfold hdrSize; omega
      refine ⟨⟨Or.inr ⟨?_, ?_, ?_, ?_, ?_⟩, ?_, ?_⟩, ?_⟩
      · rw [e2]
        omega
      · rw [e2, e4]
        omega
      · rw [e3, e4]
        omega
      · rw [e2, e3]
        omega
      · rw [e2]
        omega
      · intro b hb
        rcases List.mem_append.mp hb with hbl | hbr
        · obtain ⟨hb1, hb2, hb3⟩ := hblk b hbl
          refine ⟨?_, ?_, hb3⟩
          · rw [e2]
            omega
          · rw [e4]
            omega
        · rw [List.mem_singleton] at hbr
          subst hbr
          refine ⟨?_, ?_, ?_⟩
          · rw [e2]
            show t.start_addr ≤ t.free_addr + padFor t.free_addr + hdrSize
            omega
          · rw [e4]
          · show (0:Int) < size
            omega
      · rw [List.pairwise_append]
        refine ⟨hpw, by simp, ?_⟩
        intro a ha b hb
        rw [List.mem_singleton] at hb
        subst hb
        obtain ⟨ha1, ha2, ha3⟩ := hblk a ha
        refine Or.inl ?_
        show a.1 + a.2 ≤ t.free_addr + padFor t.free_addr + hdrSize
        omega
      · rw [e4]
        omega
    · rw [malloc_fail_clean heap t size hreg (by omega) h2 (by omega)]
      show Inv t (bs ++ []) ∧ s.free_addr ≤ t.free_addr
      rw [List.append_nil]
      exact ⟨⟨Or.inr hreg, hblk, hpw⟩, hmono0⟩

theorem step_preserves (heap : Int) (s : AllocState) (bs : List (Int × Int)) (op : Op)
    (hh0 : 0 < heap) (hh1 : heap ≤ ADDR_CAP)
    (hInv : Inv s bs) (hop : SmallOp op) :
    Inv (stepCarves heap s op).1 (bs ++ (stepCarves heap s op).2) ∧
    s.free_addr ≤ (stepCarves heap s op).1.free_addr := by
  cases op with
  | alloc size =>
      have hop' : 0 ≤ size ∧ size ≤ SZCAP := hop
      simp only [stepCarves]
      exact malloc_carve heap s bs size hh0 hh1 hInv hop'.1 hop'.2
  | zalloc nmemb size =>
      have hop' : 0 ≤ nmemb ∧ 0 ≤ size ∧ nmemb * size ≤ SZCAP := hop
      obtain ⟨hn, hs2, hprod⟩ := hop'
      have hnn : 0 ≤ nmemb * size := mul_nonneg hn hs2
      have hu : u64 (nmemb * size) = nmemb * size := by
        refine u64_eq_of _ hnn ?_
        unfold SZCAP at hprod
        unfold M64
        omega
      have hc := malloc_carve heap s bs (nmemb * size) hh0 hh1 hInv hnn hprod
      simp only [stepCarves, calloc, hu]
      rcases hmal : (malloc heap s (nmemb * size)).1 with _ | p
      · simp only [hmal] at hc ⊢
        exact hc
      · simp only [hmal] at hc ⊢
        refine ⟨(inv_mem_update _ _ _).mpr hc.1, hc.2⟩
  | resize ptr size =>
      have hop' : 0 ≤ size ∧ size ≤ SZCAP := hop
      cases ptr with
      | none =>
          simp only [stepCarves, realloc]
          exact malloc_carve heap s bs size hh0 hh1 hInv hop'.1 hop'.2
      | some q =>
          by_cases hz : size = 0
          · simp only [stepCarves, realloc, if_pos hz, free]
            rw [List.append_nil]
            exact ⟨hInv, le_refl _⟩
          · by_cases hsh : size ≤ s.headers (u64 (q - hdrSize))
            · simp only [stepCarves, realloc, if_neg hz, if_pos hsh]
              rw [List.append_nil]
              exact ⟨hInv, le_refl _⟩
            · simp only [stepCarves, realloc, if_neg hz, if_neg hsh]
              have hc := malloc_carve heap s bs size hh0 hh1 hInv hop'.1 hop'.2
              rcases hmal : (malloc heap s size).1 with _ | np
              · simp only [hmal] at hc ⊢
                exact hc
              · simp only [hmal, free] at hc ⊢
                refine ⟨(inv_mem_update _ _ _).mpr hc.1, hc.2⟩
  | dealloc p =>
      simp only [stepCarves, free]
      rw [List.append_nil]
      exact ⟨hInv, le_refl _⟩

theorem run_inv (heap : Int) (hh0 : 0 < heap) (hh1 : heap ≤ ADDR_CAP) :
    ∀ (ops : List Op) (s : AllocState) (bs : List (Int × Int)),
      Inv s bs → (∀ op ∈ ops, SmallOp op) →
      Inv (run heap s bs ops).1 (run heap s bs ops).2 := by
  intro ops
  induction ops with
  | nil =>
      intro s bs h _
      exact h
  | cons op ops ih =>
      intro s bs h hall
      have hstep := step_preserves heap s bs op hh0 hh1 h (hall op (List.mem_cons_self op ops))
      simp only [run]
      exact ih _ _ hstep.1 (fun o ho => hall o (List.mem_cons_of_mem _ ho))

theorem inv_initial : Inv initialState [] := by
  refine ⟨Or.inl ⟨rfl, rfl, rfl⟩, ?_, List.Pairwise.nil⟩
  intro b hb
  exact absurd hb (List.not_mem_nil b)

theorem sep_symmetric : Symmetric Sep := by
  intro a b h
  unfold Sep at *
  omega

/-! Claim theorems. -/

/-- C1: every successful allocate call returns a payload address that is a
multiple of 16; every successful resize call whose pointer argument is NULL or
a 16-byte aligned block address (as all addresses previously returned by
allocate are) returns a multiple of 16; and the padding formula
(16 - ((cursor + header_size) mod 16)) mod 16 makes
cursor + padding + header_size a multiple of 16 for every cursor value. -/
theorem c1_alignment :
    (∀ cursor : Int, (cursor + padFor cursor + hdrSize) % 16 = 0) ∧
    (∀ (heap : Int) (s : AllocState) (size p : Int),
      (malloc heap s size).1 = some p → p % 16 = 0) ∧
    (∀ (heap : Int) (s : AllocState) (ptr : Option Int) (size p : Int),
      (ptr = none ∨ ∃ q, ptr = some q ∧ q % 16 = 0) →
      (realloc heap s ptr size).1 = some p → p % 16 = 0) := by
  have halign : ∀ (heap : Int) (s : AllocState) (size p : Int),
      (malloc heap s size).1 = some p → p % 16 = 0 := by
    intro heap s size p h
    obtain ⟨hp, _, _⟩ := malloc_some_eq heap s size p h
    subst hp
    rw [u64_mod16]
    exact padFor_align (init heap s).free_addr
  refine ⟨fun cursor => padFor_align cursor, halign, ?_⟩
  intro heap s ptr size p hptr h
  cases ptr with
  | none => exact halign heap s size p h
  | some q =>
      rcases hptr with hn | ⟨q', hq', hal⟩
      · exact absurd hn (by simp)
      · have hqq : q = q' := by
          injection hq' with h2
        subst hqq
        by_cases hz : size = 0
        · simp only [realloc, if_pos hz] at h
          exact absurd h (by simp)
        · by_cases hsh : size ≤ s.headers (u64 (q - hdrSize))
          · simp only [realloc, if_neg hz, if_pos hsh] at h
            have hqp : q = p := by simpa using h
            subst hqp
            exact hal
          · simp only [realloc, if_neg hz, if_neg hsh] at h
            rcases hmal : (malloc heap s size).1 with _ | np
            · simp [hmal] at h
            · simp only [hmal] at h
              have hnp : np = p := by simpa using h
              subst hnp
              exact halign heap s size np hmal

/-- Witness for C1: allocate(24) on a fresh heap mapped at base 4096 returns
payload address 4112, which is a multiple of 16. -/
theorem c1_witness :
    (malloc 4096 initialState 24).1 = some 4112 ∧ (4112 : Int) % 16 = 0 := by
  refine ⟨by decide, ?_⟩
  exact c1_alignment.2.1 4096 initialState 24 4112 (by decide)

/-- C4 counterexample: allocate(24) on a fresh heap at 4096 returns block 4112
whose header records 24; resizing that block to new size 0 — and 0 ≤ 24 —
returns NULL instead of the same address, because the size-0 path of resize
frees the block, so the claim fails at new size 0. -/
theorem c4_counterexample :
    (malloc 4096 initialState 24).1 = some 4112 ∧
    sA.headers (u64 (4112 - hdrSize)) = 24 ∧
    ((0:Int) ≤ 24) ∧
    (realloc 4096 sA (some 4112) 0).1 = none := by decide

/-- C4 (amended): a resize call on a block whose header records old_size, with
any new size satisfying 1 ≤ size ≤ old_size, returns the very same address and
leaves the whole allocator state unchanged — no copy, no move, and the
header's recorded size stays old_size. -/
theorem c4_shrink_identity (heap : Int) (s : AllocState) (p old_size size : Int)
    (hhdr : s.headers (u64 (p - hdrSize)) = old_size)
    (h1 : 1 ≤ size) (h2 : size ≤ old_size) :
    realloc heap s (some p) size = (some p, s) := by
  simp only [realloc, hhdr]
  rw [if_neg (by omega : ¬ size = 0), if_pos h2]

/-- Witness for C4 (amended): shrinking block 4112 (recorded size 24) to 22
returns the same address 4112 and the identical state. -/
theorem c4_witness : realloc 4096 sA (some 4112) 22 = (some 4112, sA) :=
  c4_shrink_identity 4096 sA 4112 24 22 (by decide) (by decide) (by decide)

/-- C6: a resize call that takes the grow path (new size strictly above the
header's recorded size) and whose inner allocate fails returns NULL and leaves
the state — the old block's contents, its header, and everything else —
completely unchanged; in particular the old block is not deallocated. -/
theorem c6_grow_fail (heap : Int) (s : AllocState) (p old_size size : Int)
    (hinit : s.start_addr ≠ 0)
    (hhdr : s.headers (u64 (p - hdrSize)) = old_size)
    (hos : 0 ≤ old_size) (hgrow : old_size < size)
    (hfail : (malloc heap s size).1 = none) :
    realloc heap s (some p) size = (none, s) := by
  have hz : ¬ size = 0 := by omega
  have hsh : ¬ size ≤ old_size := by omega
  have hst := malloc_none_state heap s size hfail
  rw [init_id heap s hinit] at hst
  simp only [realloc, hhdr]
  rw [if_neg hz, if_neg hsh]
  simp only [hfail]
  rw [hst]

/-- Witness for C6: with the region filled exactly to the end (state sFull),
growing block 4112 (recorded size 2147483632) to 2147483633 fails the inner
allocation, and resize returns NULL with the state unchanged. -/
theorem c6_witness : realloc 4096 sFull (some 4112) 2147483633 = (none, sFull) :=
  c6_grow_fail 4096 sFull 4112 2147483632 2147483633 (by decide) (by decide)
    (by decide) (by decide) (by decide)

/-- C7 counterexample: the very first allocate call with size 0 does mutate
state: it lazily initializes the region, changing start_addr from 0 to the
mmap base 4096, while the claim asserts region bounds are unchanged for every
size-0 allocate call. -/
theorem c7_counterexample :
    (malloc 4096 initialState 0).1 = none ∧
    initialState.start_addr = 0 ∧
    (malloc 4096 initialState 0).2.start_addr = 4096 := by decide

/-- C7 (amended): on an already-initialized allocator, allocate(0) returns
NULL and mutates nothing: cursor, region bounds and memory contents are all
unchanged (only the one-time lazy region initialization on the very first
call falls outside this). -/
theorem c7_no_side_effects (heap : Int) (s : AllocState) (h : s.start_addr ≠ 0) :
    malloc heap s 0 = (none, s) :=
  malloc_size_zero heap s h

/-- Witness for C7 (amended): allocate(0) on the freshly initialized region
returns NULL and the identical state. -/
theorem c7_witness : malloc 4096 sInit 0 = (none, sInit) :=
  c7_no_side_effects 4096 sInit (by decide)

/-- C8: whenever zero-allocate succeeds, every byte of the returned payload —
count * size bytes, as computed in size_t arithmetic — is 0 immediately after
the call. -/
theorem c8_zero_fill (heap : Int) (s : AllocState) (nmemb size p : Int)
    (h : (calloc heap s nmemb size).1 = some p) :
    ∀ a : Int, p ≤ a → a < p + u64 (nmemb * size) →
      ((calloc heap s nmemb size).2).mem a = 0 := by
  intro a h1 h2
  simp only [calloc] at h ⊢
  rcases hmal : (malloc heap s (u64 (nmemb * size))).1 with _ | q
  · simp [hmal] at h
  · simp only [hmal] at h ⊢
    have hqp : q = p := by simpa using h
    subst hqp
    simp [h1, h2]

/-- Witness for C8: zero-allocate(3, 5) on a fresh heap at 4096 returns block
4112, and byte 4120 inside the 15-byte payload is 0. -/
theorem c8_witness :
    (calloc 4096 initialState 3 5).1 = some 4112 ∧
    ((calloc 4096 initialState 3 5).2).mem 4120 = 0 := by
  refine ⟨by decide, ?_⟩
  exact c8_zero_fill 4096 initialState 3 5 4112 (by decide) 4120 (by decide) (by decide)

/-- C10: zero-allocate with count 0 or size 0 computes total 0 and the
delegated allocate(0) returns NULL, so nothing is allocated: the resulting
state is exactly the input state after the (idempotent) lazy init. -/
theorem c10_zero_total (heap : Int) (s : AllocState) (nmemb size : Int)
    (h : nmemb = 0 ∨ size = 0) :
    calloc heap s nmemb size = (none, init heap s) := by
  have hz : u64 (nmemb * size) = 0 := by
    rcases h with rfl | rfl
    · simp [u64]
    · simp [u64]
  simp only [calloc, hz]
  rw [malloc_eq]
  simp

/-- Witness for C10: zero-allocate(0, 5) on a fresh heap at 4096 returns NULL
and only the lazy initialization happened. -/
theorem c10_witness :
    calloc 4096 initialState 0 5 = (none, init 4096 initialState) :=
  c10_zero_total 4096 initialState 0 5 (Or.inl rfl)

/-- C5: a resize call taking the grow path (new size strictly above the
header's recorded old_size) whose inner allocation succeeds returns a new
address different from the old one, the first old_size bytes of the new
payload equal the old payload byte for byte, and no byte at or beyond
new address + old_size is modified (exactly old_size bytes are copied). -/
theorem c5_grow_copies (heap : Int) (s : AllocState) (p old_size size np : Int)
    (hinit : s.start_addr ≠ 0)
    (hf0 : 0 ≤ s.free_addr) (hf1 : s.free_addr ≤ SZCAP)
    (hp0 : 0 ≤ p) (hp1 : p < s.free_addr)
    (hhdr : s.headers (u64 (p - hdrSize)) = old_size)
    (hos : 0 ≤ old_size) (hgrow : old_size < size)
    (hres : (realloc heap s (some p) size).1 = some np) :
    np ≠ p ∧
    (∀ i : Int, 0 ≤ i → i < old_size →
      ((realloc heap s (some p) size).2).mem (np + i) = s.mem (p + i)) ∧
    (∀ a : Int, np + old_size ≤ a →
      ((realloc heap s (some p) size).2).mem a = s.mem a) := by
  have hz : ¬ size = 0 := by omega
  have hsh : ¬ size ≤ old_size := by omega
  simp only [realloc, hhdr] at hres ⊢
  rw [if_neg hz, if_neg hsh] at hres ⊢
  rcases hmal : (malloc heap s size).1 with _ | q
  · simp [hmal] at hres
  · simp only [hmal, free] at hres ⊢
    have hq : q = np := by simpa using hres
    subst hq
    obtain ⟨hqv, _, _⟩ := malloc_some_eq heap s size q hmal
    rw [init_id heap s hinit] at hqv
    have hpadb := padFor_bounds s.free_addr
    have hqe : q = s.free_addr + padFor s.free_addr + hdrSize := by
      rw [hqv]
      refine u64_eq_of _ (by unfold hdrSize; omega) ?_
      unfold M64 hdrSize
      unfold SZCAP at hf1
      omega
    have hmm := malloc_mem heap s size
    refine ⟨by unfold hdrSize at hqe; omega, ?_, ?_⟩
    · intro i hi0 hi1
      show (if q ≤ q + i ∧ q + i < q + old_size
          then (malloc heap s size).2.mem (p + (q + i - q))
          else (malloc heap s size).2.mem (q + i)) = s.mem (p + i)
      rw [if_pos ⟨by omega, by omega⟩, hmm]
      congr 1
      omega
    · intro a ha
      show (if q ≤ a ∧ a < q + old_size
          then (malloc heap s size).2.mem (p + (a - q))
          else (malloc heap s size).2.mem a) = s.mem a
      rw [if_neg (by omega : ¬ (q ≤ a ∧ a < q + old_size)), hmm]

/-- Witness for C5: growing block 4112 (recorded size 24) to 30 in state sA
relocates it to 4144 ≠ 4112, and byte 3 of the new payload equals byte 3 of
the old payload. -/
theorem c5_witness :
    (4144 : Int) ≠ 4112 ∧
    ((realloc 4096 sA (some 4112) 30).2).mem (4144 + 3) = sA.mem (4112 + 3) := by
  have h := c5_grow_copies 4096 sA 4112 24 30 4144 (by decide) (by decide) (by decide)
    (by decide) (by decide) (by decide) (by decide) (by decide) (by decide)
  exact ⟨h.1, h.2.1 3 (by decide) (by decide)⟩

/-- C9: the multiplication count * size in zero-allocate is unchecked: when
the mathematical product reaches 2^64 it wraps, the inner allocate is invoked
on the wrapped — strictly smaller — value, and a succeeding call hands the
caller a block whose header records only the wrapped size: an undersized
allocation instead of a failure. -/
theorem c9_mul_overflow (heap : Int) (s : AllocState) (nmemb size p : Int)
    (hinit : s.start_addr ≠ 0) (hf0 : 0 ≤ s.free_addr) (hf1 : s.free_addr ≤ SZCAP)
    (hbig : M64 ≤ nmemb * size)
    (hsucc : (calloc heap s nmemb size).1 = some p) :
    u64 (nmemb * size) < nmemb * size ∧
    ((calloc heap s nmemb size).2).headers (u64 (p - hdrSize)) = u64 (nmemb * size) := by
  have hu := u64_bounds (nmemb * size)
  refine ⟨by omega, ?_⟩
  simp only [calloc] at hsucc ⊢
  rcases hmal : (malloc heap s (u64 (nmemb * size))).1 with _ | q
  · simp [hmal] at hsucc
  · simp only [hmal] at hsucc ⊢
    have hqp : q = p := by simpa using hsucc
    subst hqp
    obtain ⟨hqv, hhd, _⟩ := malloc_some_eq heap s (u64 (nmemb * size)) q hmal
    rw [init_id heap s hinit] at hqv hhd
    have hpadb := padFor_bounds s.free_addr
    have hfree_lt : s.free_addr + padFor s.free_addr + hdrSize < M64 := by
      unfold M64 hdrSize
      unfold SZCAP at hf1
      omega
    have hqe : q = s.free_addr + padFor s.free_addr + hdrSize :=
      hqv.trans (u64_eq_of _ (by unfold hdrSize; omega) hfree_lt)
    have hpm8 : u64 (q - hdrSize) = s.free_addr + padFor s.free_addr := by
      rw [hqe]
      have he : s.free_addr + padFor s.free_addr + hdrSize - hdrSize =
          s.free_addr + padFor s.free_addr := by omega
      rw [he]
      refine u64_eq_of _ (by omega) (by unfold hdrSize at hfree_lt; omega)
    have hcc : u64 (s.free_addr + padFor s.free_addr) =
        s.free_addr + padFor s.free_addr :=
      u64_eq_of _ (by omega) (by unfold hdrSize at hfree_lt; omega)
    show ((malloc heap s (u64 (nmemb * size))).2).headers (u64 (q - hdrSize)) =
      u64 (nmemb * size)
    rw [hhd, hpm8, hcc]
    simp

/-- Witness for C9: count 2^63 + 5 and size 2 multiply to 2^64 + 10, which
wraps to 10; the call succeeds with block 4112, whose header records 10. -/
theorem c9_witness :
    u64 (9223372036854775813 * 2) < 9223372036854775813 * 2 ∧
    ((calloc 4096 sInit 9223372036854775813 2).2).headers (u64 (4112 - hdrSize)) =
      u64 (9223372036854775813 * 2) :=
  c9_mul_overflow 4096 sInit 9223372036854775813 2 4112 (by decide) (by decide)
    (by decide) (by decide) (by decide)

/-- C2 counterexample: on a fresh heap mapped at 4096, the single-operation
sequence allocate(2^63) drives the cursor below the region start (the bounds
check passes because the total size wraps negative as intptr_t), violating
both start ≤ cursor and the monotonicity of the cursor. -/
theorem c2_counterexample :
    (run 4096 initialState [] [Op.alloc 9223372036854775808]).1.free_addr <
      (run 4096 initialState [] [Op.alloc 9223372036854775808]).1.start_addr ∧
    (run 4096 initialState [] [Op.alloc 9223372036854775808]).1.free_addr < 0 := by
  decide

/-- C2 (amended): for every sequence of operations whose sizes are bounded by
2^62 (so no 64-bit wraparound occurs in the size arithmetic), on a heap based
at a positive address at most 2^48: after the sequence start ≤ cursor ≤ end
holds, every further bounded operation can only increase the cursor, and the
payload ranges of any two distinct carved blocks never overlap. -/
theorem c2_bump_invariants (heap : Int) (hh0 : 0 < heap) (hh1 : heap ≤ ADDR_CAP)
    (ops : List Op) (hops : ∀ op ∈ ops, SmallOp op) :
    ((run heap initialState [] ops).1.start_addr ≤
        (run heap initialState [] ops).1.free_addr ∧
      (run heap initialState [] ops).1.free_addr ≤
        (run heap initialState [] ops).1.end_addr) ∧
    (∀ op, SmallOp op →
      (run heap initialState [] ops).1.free_addr ≤
        (stepCarves heap (run heap initialState [] ops).1 op).1.free_addr) ∧
    (∀ b1 ∈ (run heap initialState [] ops).2, ∀ b2 ∈ (run heap initialState [] ops).2,
      b1 ≠ b2 → ∀ x : Int,
        ¬ ((b1.1 ≤ x ∧ x < b1.1 + b1.2) ∧ (b2.1 ≤ x ∧ x < b2.1 + b2.2))) := by
  obtain ⟨hor, hblk, hpw⟩ := run_inv heap hh0 hh1 ops initialState [] inv_initial hops
  refine ⟨?_, ?_, ?_⟩
  · rcases hor with hu | hr
    · unfold Uninit at hu
      omega
    · unfold RegionOK at hr
      omega
  · intro op hop
    exact (step_preserves heap _ _ op hh0 hh1 ⟨hor, hblk, hpw⟩ hop).2
  · intro b1 hb1 b2 hb2 hne x hx
    have hsep := List.Pairwise.forall sep_symmetric hpw hb1 hb2 hne
    unfold Sep at hsep
    omega

/-- Witness for C2 (amended): a concrete bounded trace, allocate(24) then
allocate(32) from a fresh heap at 4096, satisfies the invariant. -/
theorem c2_witness :
    (run 4096 initialState [] [Op.alloc 24, Op.alloc 32]).1.start_addr ≤
      (run 4096 initialState [] [Op.alloc 24, Op.alloc 32]).1.free_addr ∧
    (run 4096 initialState [] [Op.alloc 24, Op.alloc 32]).1.free_addr ≤
      (run 4096 initialState [] [Op.alloc 24, Op.alloc 32]).1.end_addr :=
  (c2_bump_invariants 4096 (by decide) (by decide) [Op.alloc 24, Op.alloc 32]
    (by decide)).1

/-- C3 counterexample: on the freshly initialized heap at 4096, allocate(2^63)
satisfies cursor + padding + header_size + size > end, yet the call returns
block 4112 (not NULL) and moves the cursor, because the computed new cursor
wraps negative as intptr_t and slips past the bounds check. -/
theorem c3_counterexample :
    sInit.end_addr <
      sInit.free_addr + padFor sInit.free_addr + hdrSize + 9223372036854775808 ∧
    (malloc 4096 sInit 9223372036854775808).1 = some 4112 ∧
    (malloc 4096 sInit 9223372036854775808).2.free_addr ≠ sInit.free_addr := by
  decide

/-- C3 (amended): on a well-formed region, an allocate call with
0 < size ≤ 2^62 (no wraparound) such that cursor + padding + header_size +
size > end returns NULL and leaves the state (in particular the cursor)
unchanged; and any subsequent allocate call whose size fits —
cursor + padding + header_size + size' ≤ end — succeeds. -/
theorem c3_exhaustion (heap : Int) (s : AllocState) (size : Int)
    (hreg : RegionOK s) (h1 : 0 < size) (h2 : size ≤ SZCAP)
    (hover : s.end_addr < s.free_addr + padFor s.free_addr + hdrSize + size) :
    (malloc heap s size).1 = none ∧
    (malloc heap s size).2 = s ∧
    (∀ size' : Int, 0 < size' →
      s.free_addr + padFor s.free_addr + hdrSize + size' ≤ s.end_addr →
      ∃ p, (malloc heap s size').1 = some p) := by
  have hfail := malloc_fail_clean heap s size hreg h1 h2 hover
  refine ⟨by rw [hfail], by rw [hfail], ?_⟩
  intro size' h1' hfit'
  have h2' : size' ≤ SZCAP := by
    obtain ⟨a1, a2, a3, a4, a5⟩ := hreg
    have hp := padFor_bounds s.free_addr
    unfold SZCAP
    unfold ADDR_CAP at a5
    unfold HEAP_SIZE at a4
    unfold hdrSize at hfit'
    omega
  obtain ⟨e1, _⟩ := malloc_succ_clean heap s size' hreg h1' h2' hfit'
  exact ⟨_, e1⟩

/-- Witness for C3 (amended): on the fresh region at 4096, allocate(2^62)
overshoots the end and returns NULL with the state unchanged. -/
theorem c3_witness :
    (malloc 4096 sInit 4611686018427387904).1 = none ∧
    (malloc 4096 sInit 4611686018427387904).2 = sInit := by
  have h := c3_exhaustion 4096 sInit 4611686018427387904
    (by unfold RegionOK; decide) (by decide) (by decide) (by decide)
  exact ⟨h.1, h.2.1⟩

end PBAlloc
